import Mathlib

/-!
Verification of the document-to-audio core of this repository.

The Python source is shallowly embedded: a Python `str` is modelled as a
`List Char`, Python lists as `List`, Python dicts (which preserve unique
keys) as association lists, fallible operations either return `Except`
or take explicit success flags for the filesystem effects they perform.

Embedded components:
* `chunk_text` and its helpers — `src/src/doc_reader.py`, lines 130-186;
* `text2audioRun` / `text2audioRunE` — `src/src/doc_reader.py`, lines 188-238
  (`text2audio`), with the injected synthesizer as a function argument and
  audio buffers tracked by their duration in milliseconds;
* `VMState` with `add_voice`, `remove_voice`, `get_voice_list`,
  `get_voice_path`, `voice_exists`, `load_metadata` — `src/src/voice_manager.py`;
* `chatterboxInit` / `generateEffExaggeration` — `src/src/tts_gen_chaterbox_local.py`.
-/

/-! ## Python string primitives on `List Char` -/

/-- Python `str.strip()`: remove leading and trailing whitespace. -/
def pyStrip (cs : List Char) : List Char :=
  ((cs.dropWhile Char.isWhitespace).reverse.dropWhile Char.isWhitespace).reverse

/-- Python `s.split(' ')`: split on every single space character, keeping
empty pieces; `"".split(' ')` is `[""]`. -/
def splitOnSpace : List Char → List (List Char)
  | [] => [[]]
  | c :: cs =>
    if c = ' ' then [] :: splitOnSpace cs
    else
      match splitOnSpace cs with
      | [] => [[c]]
      | w :: ws => (c :: w) :: ws

/-- Python `' '.join(ws)`. -/
def joinSpace : List (List Char) → List Char
  | [] => []
  | [w] => w
  | w :: ws => w ++ ' ' :: joinSpace ws

/-- Sum of `len(w) + 1` over a word list (the running `temp_length` of
`chunk_text`'s inner word loop). -/
def sumLen (ws : List (List Char)) : Nat :=
  (ws.map (fun w => w.length + 1)).sum

/-! ## ChunkSplitter (`chunk_text`, `src/src/doc_reader.py` 130-186)

The sentence tokenizer used by the source, `nltk.sent_tokenize` (the punkt
model), is a third-party library and not part of this repository, so it is
modelled from the spec below; the packing loops are translated directly
from the source. -/

/-- Modelled from the spec: the known-abbreviation list of §4.1 step 1
("Mr.", "Dr.", "U.S.A.", "Fig.", "etc."); nltk's punkt model carries such a
list and is not part of this repository. -/
def abbrevList : List (List Char) :=
  ["Mr.", "Mrs.", "Ms.", "Dr.", "Prof.", "Fig.", "No.", "St.", "vs.",
   "etc.", "e.g.", "i.e."].map String.data

/-- Modelled from the spec: a token whose trailing period is preceded by a
known abbreviation or by a token with internal periods (such as "U.S.A.")
does not terminate a sentence. -/
def isAbbrevWord (w : List Char) : Bool :=
  abbrevList.contains w ||
    (match w.getLast? with
     | some c => c == '.' && w.dropLast.contains '.'
     | none => false)

/-- Modelled from the spec: a word terminates a sentence when it ends with
sentence-final punctuation and is not an abbreviation token. -/
def isSentenceEnd (w : List Char) : Bool :=
  (match w.getLast? with
   | some c => c == '.' || c == '!' || c == '?'
   | none => false) && !(isAbbrevWord w)

/-- Modelled from the spec: group a word stream into sentences, closing a
sentence after each sentence-terminating word. -/
def groupWords : List (List Char) → List (List Char) → List (List Char)
  | acc, [] => if acc = [] then [] else [joinSpace acc]
  | acc, w :: ws =>
    if isSentenceEnd w then joinSpace (acc ++ [w]) :: groupWords [] ws
    else groupWords (acc ++ [w]) ws

/-- Modelled from the spec: `nltk.sent_tokenize` — locale-aware,
abbreviation-aware sentence-boundary detection (§4.1 step 1). Whitespace-only
input yields no sentences. -/
def sent_tokenize (text : List Char) : List (List Char) :=
  groupWords [] ((splitOnSpace text).filter (fun w => w ≠ []))

/-- The inner word loop of `chunk_text` (`doc_reader.py` 167-176): state is
`(chunks, temp_chunk, temp_length)`. -/
def wstep (maxLen : Nat) (st : List (List Char) × List (List Char) × Nat)
    (w : List Char) : List (List Char) × List (List Char) × Nat :=
  let wl := w.length + 1
  if st.2.2 + wl ≤ maxLen then (st.1, st.2.1 ++ [w], st.2.2 + wl)
  else ((if st.2.1 = [] then st.1 else st.1 ++ [joinSpace st.2.1]), [w], wl)

/-- The greedy-packing phase of one sentence iteration
(`doc_reader.py` 149-158): emit the current chunk and restart, or append
the sentence to it. -/
def smid (maxLen : Nat) (st : List (List Char) × List Char)
    (s : List Char) : List (List Char) × List Char :=
  if st.2 ≠ [] ∧ st.2.length + s.length + 1 > maxLen then (st.1 ++ [st.2], s)
  else if st.2 = [] then (st.1, s)
  else (st.1, st.2 ++ ' ' :: s)

/-- One iteration of `chunk_text`'s sentence loop (`doc_reader.py` 144-181):
state is `(chunks, current_chunk)`; an overlong current chunk is re-split
on spaces by the inner word loop. -/
def sstep (maxLen : Nat) (st : List (List Char) × List Char)
    (sentence : List Char) : List (List Char) × List Char :=
  let s := pyStrip sentence
  if s = [] then st
  else
    let mid := smid maxLen st s
    if mid.2.length > maxLen then
      let r := (splitOnSpace mid.2).foldl (wstep maxLen) (mid.1, [], 0)
      (r.1, if r.2.1 = [] then [] else joinSpace r.2.1)
    else mid

/-- The body of `chunk_text` after sentence tokenization
(`doc_reader.py` 139-186). -/
def chunkCore (maxLen : Nat) (sentences : List (List Char)) :
    List (List Char) :=
  let r := sentences.foldl (sstep maxLen) ([], [])
  if r.2 = [] then r.1 else r.1 ++ [r.2]

/-- `chunk_text(text, max_length=200)` of `src/src/doc_reader.py` 130-186. -/
def chunk_text (text : String) (maxLen : Nat := 200) : List String :=
  (chunkCore maxLen (sent_tokenize text.data)).map String.mk

/-! ## SynthesisPipeline (`text2audio`, `src/src/doc_reader.py` 188-238)

Audio buffers are tracked by their duration in milliseconds; `pydub`
concatenation adds durations and `AudioSegment.silent(duration=500)` is the
constant 500. The injected synthesizer `tts.generate` is a function from
the segment text to the duration of the returned buffer. -/

/-- Observable trace of one `text2audio` run: the texts passed to
`tts.generate` in call order, the fractions passed to `progress_callback`
in call order, the per-segment buffers (`chunk_audio + silence`) in order,
and the duration of the audio most recently exported to `out_path`
(`none` when nothing was ever exported). -/
structure T2ARun where
  calls : List (List Char)
  progress : List ℚ
  segments : List ℕ
  outPath : Option ℕ
deriving DecidableEq

/-- The `for i, line in enumerate(lines)` loop of `text2audio`
(`doc_reader.py` 214-236): report progress `(i+1)/total`, synthesize,
append the segment plus 500 ms of silence, re-combine every segment so far
(`sum(segments, AudioSegment.empty())`; the `else` arm of the source's
guard is the empty buffer, which equals the sum of no segments) and
export the combined audio to `out_path`. -/
def t2aLoop (gen : List Char → ℕ) (total : ℕ) :
    ℕ → List (List Char) → T2ARun → T2ARun
  | _, [], st => st
  | i, l :: ls, st =>
    let seg := gen l + 500
    t2aLoop gen total (i + 1) ls
      { calls := st.calls ++ [l]
        progress := st.progress ++ [((i + 1 : ℕ) : ℚ) / (total : ℚ)]
        segments := st.segments ++ [seg]
        outPath := some ((st.segments ++ [seg]).sum) }

/-- `text2audio` on the chunked lines, with an injected synthesizer that
always succeeds (`doc_reader.py` 208-238). -/
def text2audioRun (lines : List (List Char)) (gen : List Char → ℕ) : T2ARun :=
  t2aLoop gen lines.length 0 lines ⟨[], [], [], none⟩

/-- Trace of a `text2audio` run whose synthesizer may raise: as `T2ARun`,
plus the exception that escaped the call, if any. -/
structure T2ARunE where
  calls : List (List Char)
  progress : List ℚ
  segments : List ℕ
  outPath : Option ℕ
  err : Option String
deriving DecidableEq

/-- The `text2audio` loop when `tts.generate` may raise. `text2audio` has
no handler (`doc_reader.py` 214-238), so the first exception aborts the
loop and propagates unchanged; the export of the current iteration never
runs, leaving `out_path` as the previous iteration's export. -/
def t2aLoopE (gen : List Char → Except String ℕ) (total : ℕ) :
    ℕ → List (List Char) → T2ARunE → T2ARunE
  | _, [], st => st
  | i, l :: ls, st =>
    match gen l with
    | Except.error e =>
      { calls := st.calls ++ [l]
        progress := st.progress ++ [((i + 1 : ℕ) : ℚ) / (total : ℚ)]
        segments := st.segments
        outPath := st.outPath
        err := some e }
    | Except.ok d =>
      t2aLoopE gen total (i + 1) ls
        { calls := st.calls ++ [l]
          progress := st.progress ++ [((i + 1 : ℕ) : ℚ) / (total : ℚ)]
          segments := st.segments ++ [d + 500]
          outPath := some ((st.segments ++ [d + 500]).sum)
          err := st.err }

/-- `text2audio` on the chunked lines with a fallible synthesizer. -/
def text2audioRunE (lines : List (List Char))
    (gen : List Char → Except String ℕ) : T2ARunE :=
  t2aLoopE gen lines.length 0 lines ⟨[], [], [], none, none⟩

/-! ## VoiceRegistry (`VoiceManager`, `src/src/voice_manager.py`)

`self.metadata` is a Python dict with unique keys, modelled as an
association list in insertion order. Filesystem writes of the sample files
are untracked; the success of `_save_metadata` (which can raise
`RuntimeError`, `voice_manager.py` 40-46) and of `shutil.rmtree` are
explicit Boolean parameters. Paths use the `/` separator of the test
platform. -/

/-- One value of `self.metadata[name]` (`voice_manager.py` 100-104). -/
structure VMeta where
  path : String
  original_name : String
  dir : String
deriving DecidableEq

/-- The state of one `VoiceManager` instance: its `voices_dir` and its
in-memory `self.metadata` mapping. -/
structure VMState where
  voices_dir : String
  metadata : List (String × VMeta)
deriving DecidableEq

/-- Python `name in self.metadata`. -/
def hasKey (m : List (String × VMeta)) (name : String) : Bool :=
  m.any (fun p => p.1 == name)

/-- Python `self.metadata[name]` as an optional lookup. -/
def lookupKey (m : List (String × VMeta)) (name : String) : Option VMeta :=
  (m.find? (fun p => p.1 == name)).map (fun p => p.2)

/-- `VoiceManager._load_metadata` (`voice_manager.py` 30-38): `none` models
a missing index file, `Except.ok` a readable JSON index, `Except.error` any
exception while opening or parsing it — the bare `except Exception` arm
returns the empty dict. -/
def load_metadata (disk : Option (Except String (List (String × VMeta)))) :
    List (String × VMeta) :=
  match disk with
  | none => []
  | some (Except.ok m) => m
  | some (Except.error _) => []

/-- `VoiceManager._save_metadata` (`voice_manager.py` 40-46) on success:
`json.dump` rewrites the whole index file with the current mapping (an
in-place `open(..., 'w')`, no temporary file and no rename). -/
def writeIndex (m : List (String × VMeta)) :
    Option (Except String (List (String × VMeta))) :=
  some (Except.ok m)

/-- Python `name.replace(" ", "_")`. -/
def replaceSpaces (s : String) : String :=
  String.mk (s.data.map (fun c => if c = ' ' then '_' else c))

/-- Python `s.lower()` (ASCII case is all these claims need). -/
def lowerData (s : String) : List Char :=
  s.data.map Char.toLower

/-- `VoiceManager.add_voice` (`voice_manager.py` 48-111). `audioFileName`
is `audio_file.name`; `saveOk` is whether `_save_metadata` succeeds. The
`except` arm catches a `_save_metadata` failure after `self.metadata[name]`
was already assigned, so the staged entry survives a failed call. -/
def add_voice (st : VMState) (name : String) (audioFileName : String)
    (saveOk : Bool) : Bool × VMState :=
  if name = "" ∨ hasKey st.metadata name then (false, st)
  else
    let low := lowerData audioFileName
    let ext : Option String :=
      if (".wav".data).isSuffixOf low then some "wav"
      else if (".mp3".data).isSuffixOf low then some "mp3"
      else none
    match ext with
    | none => (false, st)
    | some _ =>
      let voice_dir := st.voices_dir ++ "/" ++ replaceSpaces name
      let wav_path := voice_dir ++ "/sample.wav"
      let st1 : VMState :=
        { st with metadata :=
            st.metadata ++ [(name, ⟨wav_path, audioFileName, voice_dir⟩)] }
      if saveOk then (true, st1) else (false, st1)

/-- `VoiceManager.remove_voice` (`voice_manager.py` 113-140). `rmtreeOk` is
whether `shutil.rmtree` succeeds (it runs before the `del`), `saveOk`
whether `_save_metadata` succeeds (it runs after the `del`; a failure is
caught after the in-memory deletion already happened). -/
def remove_voice (st : VMState) (name : String) (rmtreeOk saveOk : Bool) :
    Bool × VMState :=
  if ¬ hasKey st.metadata name then (false, st)
  else if ¬ rmtreeOk then (false, st)
  else
    let st1 : VMState :=
      { st with metadata := st.metadata.filter (fun p => p.1 ≠ name) }
    if saveOk then (true, st1) else (false, st1)

/-- Python code-point comparison of strings, as used by `sorted`. -/
def charListLe : List Char → List Char → Bool
  | [], _ => true
  | _ :: _, [] => false
  | a :: as, b :: bs =>
    if a.val < b.val then true
    else if b.val < a.val then false
    else charListLe as bs

/-- Insertion into a sorted list of strings. -/
def insertSorted (s : String) : List String → List String
  | [] => [s]
  | t :: ts => if charListLe s.data t.data then s :: t :: ts
               else t :: insertSorted s ts

/-- Python `sorted` on strings (stable, ascending code-point order). -/
def sortStrings : List String → List String
  | [] => []
  | s :: ss => insertSorted s (sortStrings ss)

/-- `VoiceManager.get_voice_list` (`voice_manager.py` 142-151). -/
def get_voice_list (st : VMState) : List String :=
  "Model default" :: sortStrings (st.metadata.map (fun p => p.1))

/-- `VoiceManager.get_voice_path` (`voice_manager.py` 153-171).
`fileExistsOnDisk` is `os.path.exists`. -/
def get_voice_path (st : VMState) (fileExistsOnDisk : String → Bool)
    (name : String) : Option String :=
  if name = "Model default" then none
  else
    match lookupKey st.metadata name with
    | some m => if fileExistsOnDisk m.path then some m.path else none
    | none => none

/-- `VoiceManager.voice_exists` (`voice_manager.py` 173-183). -/
def voice_exists (st : VMState) (name : String) : Bool :=
  hasKey st.metadata name

/-! ## ChatterboxLocal (`src/src/tts_gen_chaterbox_local.py`)

Only the numeric voice parameters are modelled; Python floats appear here
as rationals, which is exact for the literals `0.6`, `0.5`, `0.8` and for
the only fact at stake — how `or` treats `None` and `0.0`. -/

/-- Python `x or d` for an optional float argument `x`: `None` and `0.0`
are falsy, every other float is truthy. -/
def pyOrQ (x : Option ℚ) (d : ℚ) : ℚ :=
  match x with
  | none => d
  | some v => if v = 0 then d else v

/-- The voice parameters stored on a `ChatterboxLocal` instance. -/
structure CBParams where
  exaggeration : ℚ
  cfg_weight : ℚ
  temperature : ℚ
deriving DecidableEq

/-- `ChatterboxLocal.__init__` (`tts_gen_chaterbox_local.py` 13-27):
`self.exaggeration = exaggeration or 0.6`, `self.cfg_weight = cfg_weight
or 0.5`, `self.temperature = temperature or 0.8`. -/
def chatterboxInit (exaggeration cfg_weight temperature : Option ℚ) :
    CBParams :=
  ⟨pyOrQ exaggeration (6/10), pyOrQ cfg_weight (1/2), pyOrQ temperature (8/10)⟩

/-- The effective exaggeration inside `ChatterboxLocal.generate`
(`tts_gen_chaterbox_local.py` 34-38): `exaggeration = exaggeration or
self.exaggeration`. -/
def generateEffExaggeration (self : CBParams) (exaggeration : Option ℚ) : ℚ :=
  pyOrQ exaggeration self.exaggeration

/-! ## Lemmas: the chunking length bound -/

/-- A segment permitted by the chunking contract: within the length bound,
or a single word containing no space (the word separator `chunk_text`
splits on). -/
def okSeg (maxLen : Nat) (s : List Char) : Prop :=
  s.length ≤ maxLen ∨ ' ' ∉ s

@[simp] lemma sumLen_nil : sumLen [] = 0 := rfl

@[simp] lemma sumLen_cons (w : List Char) (ws : List (List Char)) :
    sumLen (w :: ws) = w.length + 1 + sumLen ws := by
  simp [sumLen]

@[simp] lemma sumLen_append (a b : List (List Char)) :
    sumLen (a ++ b) = sumLen a + sumLen b := by
  simp [sumLen]

lemma joinSpace_singleton (w : List Char) : joinSpace [w] = w := rfl

lemma joinSpace_length :
    ∀ ws : List (List Char), ws ≠ [] → (joinSpace ws).length + 1 = sumLen ws := by
  intro ws
  induction ws with
  | nil => intro h; exact absurd rfl h
  | cons w ws ih =>
    intro _
    cases ws with
    | nil => simp [joinSpace]
    | cons w2 rest =>
      have h2 := ih (by simp)
      simp only [sumLen_cons] at h2
      simp only [joinSpace, List.length_append, List.length_cons, sumLen_cons]
      omega

lemma splitOnSpace_ne_nil (cs : List Char) : splitOnSpace cs ≠ [] := by
  cases cs with
  | nil => simp [splitOnSpace]
  | cons c cs =>
    by_cases hc : c = ' '
    · simp [splitOnSpace, hc]
    · simp only [splitOnSpace, if_neg hc]
      cases h : splitOnSpace cs <;> simp

lemma splitOnSpace_no_space :
    ∀ cs : List Char, ∀ w ∈ splitOnSpace cs, ' ' ∉ w := by
  intro cs
  induction cs with
  | nil =>
    intro w hw
    simp only [splitOnSpace, List.mem_singleton] at hw
    simp [hw]
  | cons c cs ih =>
    intro w hw
    by_cases hc : c = ' '
    · simp only [splitOnSpace, if_pos hc, List.mem_cons] at hw
      rcases hw with h | h
      · simp [h]
      · exact ih w h
    · simp only [splitOnSpace, if_neg hc] at hw
      cases hsp : splitOnSpace cs with
      | nil => exact absurd hsp (splitOnSpace_ne_nil cs)
      | cons w0 ws0 =>
        rw [hsp] at hw
        rcases List.mem_cons.mp hw with h | h
        · subst h
          intro hmem
          rcases List.mem_cons.mp hmem with h1 | h1
          · exact hc h1.symm
          · exact ih w0 (by rw [hsp]; exact List.mem_cons_self _ _) h1
        · exact ih w (by rw [hsp]; exact List.mem_cons_of_mem _ h)

lemma emit_ok (maxLen : Nat) (temp : List (List Char))
    (hns : ∀ w ∈ temp, ' ' ∉ w)
    (hinv : sumLen temp ≤ maxLen ∨ ∃ w, temp = [w]) (hne : temp ≠ []) :
    okSeg maxLen (joinSpace temp) := by
  rcases hinv with h | ⟨w, rfl⟩
  · left
    have := joinSpace_length temp hne
    omega
  · right
    rw [joinSpace_singleton]
    exact hns w (by simp)

lemma wfold_inv (maxLen : Nat) :
    ∀ (ws : List (List Char)) (st : List (List Char) × List (List Char) × Nat),
    (∀ c ∈ st.1, okSeg maxLen c) →
    (∀ w ∈ st.2.1, ' ' ∉ w) →
    (∀ w ∈ ws, ' ' ∉ w) →
    st.2.2 = sumLen st.2.1 →
    (st.2.1 = [] ∨ sumLen st.2.1 ≤ maxLen ∨ ∃ w, st.2.1 = [w]) →
    (∀ c ∈ (ws.foldl (wstep maxLen) st).1, okSeg maxLen c) ∧
    (∀ w ∈ (ws.foldl (wstep maxLen) st).2.1, ' ' ∉ w) ∧
    ((ws.foldl (wstep maxLen) st).2.1 = [] ∨
     sumLen (ws.foldl (wstep maxLen) st).2.1 ≤ maxLen ∨
     ∃ w, (ws.foldl (wstep maxLen) st).2.1 = [w]) := by
  intro ws
  induction ws with
  | nil =>
    intro st h1 h2 _ _ h5
    simpa using ⟨h1, h2, h5⟩
  | cons w ws ih =>
    intro st h1 h2 h3 h4 h5
    simp only [List.foldl_cons]
    by_cases hcond : st.2.2 + (w.length + 1) ≤ maxLen
    · have hstep : wstep maxLen st w = (st.1, st.2.1 ++ [w], st.2.2 + (w.length + 1)) := by
        simp [wstep, hcond]
      rw [hstep]
      apply ih (st.1, st.2.1 ++ [w], st.2.2 + (w.length + 1))
      · exact h1
      · intro w2 hw2
        rcases List.mem_append.mp hw2 with h | h
        · exact h2 w2 h
        · rw [List.mem_singleton.mp h]
          exact h3 w (by simp)
      · intro w2 hw2
        exact h3 w2 (List.mem_cons_of_mem _ hw2)
      · simp [h4]
      · right; left
        simp only [sumLen_append, sumLen_cons, sumLen_nil]
        omega
    · have hstep : wstep maxLen st w =
          ((if st.2.1 = [] then st.1 else st.1 ++ [joinSpace st.2.1]),
           [w], w.length + 1) := by
        simp [wstep, hcond]
      rw [hstep]
      apply ih _ _ _ _ _ _
      · by_cases ht : st.2.1 = []
        · simpa [ht] using h1
        · simp only [if_neg ht]
          intro c hc
          rcases List.mem_append.mp hc with h | h
          · exact h1 c h
          · rw [List.mem_singleton.mp h]
            refine emit_ok maxLen st.2.1 h2 ?_ ht
            rcases h5 with h5 | h5 | h5
            · exact absurd h5 ht
            · exact Or.inl h5
            · exact Or.inr h5
      · intro w2 hw2
        rw [List.mem_singleton.mp hw2]
        exact h3 w (by simp)
      · intro w2 hw2
        exact h3 w2 (List.mem_cons_of_mem _ hw2)
      · simp
      · right; right; exact ⟨w, rfl⟩

lemma smid_inv (maxLen : Nat) (st : List (List Char) × List Char)
    (s : List Char)
    (h1 : ∀ c ∈ st.1, okSeg maxLen c) (h2 : okSeg maxLen st.2) :
    ∀ c ∈ (smid maxLen st s).1, okSeg maxLen c := by
  unfold smid
  split
  · intro c hc
    rcases List.mem_append.mp hc with h | h
    · exact h1 c h
    · rw [List.mem_singleton.mp h]; exact h2
  · split
    · exact h1
    · exact h1

lemma sstep_inv (maxLen : Nat) (st : List (List Char) × List Char)
    (sen : List Char)
    (h1 : ∀ c ∈ st.1, okSeg maxLen c) (h2 : okSeg maxLen st.2) :
    (∀ c ∈ (sstep maxLen st sen).1, okSeg maxLen c) ∧
    okSeg maxLen (sstep maxLen st sen).2 := by
  unfold sstep
  by_cases hs : pyStrip sen = []
  · simp only [if_pos hs]
    exact ⟨h1, h2⟩
  · simp only [if_neg hs]
    have hmid := smid_inv maxLen st (pyStrip sen) h1 h2
    by_cases hlen : (smid maxLen st (pyStrip sen)).2.length > maxLen
    · simp only [if_pos hlen]
      have hw := wfold_inv maxLen (splitOnSpace (smid maxLen st (pyStrip sen)).2)
        ((smid maxLen st (pyStrip sen)).1, [], 0) hmid (by simp)
        (splitOnSpace_no_space _) (by simp) (Or.inl rfl)
      refine ⟨hw.1, ?_⟩
      by_cases ht :
          ((splitOnSpace (smid maxLen st (pyStrip sen)).2).foldl (wstep maxLen)
            ((smid maxLen st (pyStrip sen)).1, [], 0)).2.1 = []
      · simp only [if_pos ht]
        exact Or.inl (by simp)
      · simp only [if_neg ht]
        refine emit_ok maxLen _ hw.2.1 ?_ ht
        rcases hw.2.2 with h | h | h
        · exact absurd h ht
        · exact Or.inl h
        · exact Or.inr h
    · simp only [if_neg hlen]
      exact ⟨hmid, Or.inl (by omega)⟩

lemma sfold_inv (maxLen : Nat) :
    ∀ (sentences : List (List Char)) (st : List (List Char) × List Char),
    (∀ c ∈ st.1, okSeg maxLen c) → okSeg maxLen st.2 →
    (∀ c ∈ (sentences.foldl (sstep maxLen) st).1, okSeg maxLen c) ∧
    okSeg maxLen (sentences.foldl (sstep maxLen) st).2 := by
  intro sentences
  induction sentences with
  | nil =>
    intro st h1 h2
    simpa using ⟨h1, h2⟩
  | cons sen rest ih =>
    intro st h1 h2
    simp only [List.foldl_cons]
    have hk := sstep_inv maxLen st sen h1 h2
    exact ih (sstep maxLen st sen) hk.1 hk.2

lemma chunkCore_ok (maxLen : Nat) (sentences : List (List Char)) :
    ∀ s ∈ chunkCore maxLen sentences, okSeg maxLen s := by
  intro s hs
  have h := sfold_inv maxLen sentences ([], []) (by simp) (Or.inl (by simp))
  unfold chunkCore at hs
  by_cases hc : (sentences.foldl (sstep maxLen) ([], [])).2 = []
  · rw [if_pos hc] at hs
    exact h.1 s hs
  · rw [if_neg hc] at hs
    rcases List.mem_append.mp hs with hm | hm
    · exact h.1 s hm
    · rw [List.mem_singleton.mp hm]
      exact h.2

/-! ## Claim theorems: ChunkSplitter -/

/-- C1: `chunk_text` is abbreviation-aware — it does not end a segment
after tokens such as "Mr.", "Dr.", "U.S.A.": on
`("Mr. Smith went to the U.S.A. today.", 100)` it returns exactly one
segment equal to the input, and on
`("Dr. Jones is here. He likes the U.K. very much.", 30)` it returns
exactly the two segments `"Dr. Jones is here."` and
`"He likes the U.K. very much."`, in that order. -/
theorem chunk_text_abbrev_examples :
    chunk_text "Mr. Smith went to the U.S.A. today." 100 =
      ["Mr. Smith went to the U.S.A. today."] ∧
    chunk_text "Dr. Jones is here. He likes the U.K. very much." 30 =
      ["Dr. Jones is here.", "He likes the U.K. very much."] :=
  ⟨by decide, by decide⟩

/-- C2 counterexample: an oversized segment need not be whitespace-free.
`chunk_text` splits words only on the space character
(`current_chunk.split(' ')`), so on `("aaaa\tbbbb cccc", 8)` it emits the
segment `"aaaa\tbbbb"` — nine characters, over the bound of eight, and
containing the whitespace character `'\t'`. -/
theorem chunk_text_oversized_tab_cx :
    ("aaaa\tbbbb" : String) ∈ chunk_text "aaaa\tbbbb cccc" 8 ∧
    8 < ("aaaa\tbbbb" : String).length ∧
    '\t' ∈ ("aaaa\tbbbb" : String).data ∧
    Char.isWhitespace '\t' = true :=
  ⟨by decide, by decide, by decide, by decide⟩

/-- C2 (amended): for every input text and every positive `max_length`,
every segment `chunk_text` returns is within `max_length`, except that a
segment may be a single word longer than `max_length`, where a word is a
token containing no space — the only separator `chunk_text` splits words
on — though it may contain other whitespace such as tabs; no word is ever
split. -/
theorem chunk_text_segment_bound (text : String) (maxLen : Nat)
    (hpos : 0 < maxLen) :
    ∀ s ∈ chunk_text text maxLen, s.length ≤ maxLen ∨ ' ' ∉ s.data := by
  intro s hs
  unfold chunk_text at hs
  rcases List.mem_map.mp hs with ⟨l, hl, rfl⟩
  have h := chunkCore_ok maxLen (sent_tokenize text.data) l hl
  rcases h with h | h
  · exact Or.inl h
  · exact Or.inr h

/-- Witness for `chunk_text_segment_bound` at `("ab cd", 5)`, whose single
segment is `"ab cd"`. -/
theorem chunk_text_segment_bound_witness :
    ("ab cd" : String).length ≤ 5 ∨ ' ' ∉ ("ab cd" : String).data :=
  chunk_text_segment_bound "ab cd" 5 (by decide) "ab cd" (by decide)

/-- C8 counterexample: `chunk_text` does not fail on the allegedly invalid
arguments — empty text returns the empty list rather than an
`InvalidInput` error, and `max_length = 0` (which is not positive) also
returns normally, one word per segment. -/
theorem chunk_text_no_invalid_input_cx :
    chunk_text "" 100 = [] ∧ chunk_text "a b" 0 = ["a", "b"] :=
  ⟨by decide, by decide⟩

/-- C8 (amended): `chunk_text` performs no argument validation and has no
failure path at all: for every `max_length` it returns normally — the empty
text yields the empty segment list, and a non-positive `max_length` still
yields segments (each word its own segment) instead of an error. -/
theorem chunk_text_total :
    (∀ maxLen : Nat, chunk_text "" maxLen = []) ∧
    chunk_text "ab cd" 0 = ["ab", "cd"] :=
  ⟨fun _ => rfl, by decide⟩

/-- Witness for `chunk_text_total` at `max_length = 7`. -/
theorem chunk_text_total_witness : chunk_text "" 7 = [] :=
  chunk_text_total.1 7

/-! ## Lemmas: the synthesis pipeline -/

lemma sum_map_add_silence (lines : List (List Char)) (gen : List Char → ℕ) :
    (lines.map (fun l => gen l + 500)).sum =
      (lines.map gen).sum + lines.length * 500 := by
  induction lines with
  | nil => simp
  | cons l ls ih =>
    simp only [List.map_cons, List.sum_cons, List.length_cons, ih]
    ring

lemma t2aLoop_spec (gen : List Char → ℕ) (total : ℕ) :
    ∀ (ls : List (List Char)) (i : ℕ) (st : T2ARun),
    t2aLoop gen total i ls st =
      { calls := st.calls ++ ls
        progress := st.progress ++
          (List.range ls.length).map
            (fun j => ((i + j + 1 : ℕ) : ℚ) / (total : ℚ))
        segments := st.segments ++ ls.map (fun l => gen l + 500)
        outPath := if ls = [] then st.outPath
          else some ((st.segments ++ ls.map (fun l => gen l + 500)).sum) } := by
  intro ls
  induction ls with
  | nil =>
    intro i st
    simp [t2aLoop]
  | cons l ls ih =>
    intro i st
    simp only [t2aLoop]
    rw [ih (i + 1)]
    simp only [T2ARun.mk.injEq]
    refine ⟨by simp, ?_, by simp, ?_⟩
    · have hfun : (fun j : ℕ => ((i + 1 + j + 1 : ℕ) : ℚ) / (total : ℚ)) =
          (fun j : ℕ => ((i + (j + 1) + 1 : ℕ) : ℚ) / (total : ℚ)) := by
        funext j
        have h : i + 1 + j + 1 = i + (j + 1) + 1 := by omega
        rw [h]
      simp only [List.length_cons, List.range_succ_eq_map, List.map_cons,
        List.map_map, List.append_assoc, List.singleton_append,
        Function.comp_def, Nat.succ_eq_add_one, Nat.add_zero, hfun]
    · by_cases hls : ls = []
      · simp [hls]
      · simp [hls]

/-- C6: on every non-empty list of N chunks, `text2audio` calls the
injected synthesizer exactly once per chunk in input order, the exported
audio's duration is the sum of the N segment durations plus N times the
500 ms inter-segment silence (silence follows every segment, the last one
included), and the progress callback receives the increasing values
`(i+1)/N`, ending at exactly 1. -/
theorem text2audio_accounting (lines : List (List Char))
    (gen : List Char → ℕ) (hne : lines ≠ []) :
    (text2audioRun lines gen).calls = lines ∧
    (text2audioRun lines gen).outPath =
      some ((lines.map gen).sum + lines.length * 500) ∧
    (text2audioRun lines gen).progress =
      (List.range lines.length).map
        (fun i => ((i + 1 : ℕ) : ℚ) / (lines.length : ℚ)) ∧
    (text2audioRun lines gen).progress.getLast? = some 1 := by
  have h := t2aLoop_spec gen lines.length lines 0 ⟨[], [], [], none⟩
  unfold text2audioRun
  rw [h]
  simp only [List.nil_append, if_neg hne, Nat.zero_add]
  obtain ⟨k, hk⟩ : ∃ k, lines.length = k + 1 := by
    cases lines with
    | nil => exact absurd rfl hne
    | cons a l => exact ⟨l.length, rfl⟩
  refine ⟨trivial, by rw [sum_map_add_silence], trivial, ?_⟩
  rw [hk, List.range_succ, List.map_append, List.map_singleton,
    List.getLast?_concat]
  have hnz : ((k + 1 : ℕ) : ℚ) ≠ 0 := by
    exact_mod_cast Nat.succ_ne_zero k
  rw [div_self hnz]

/-- Witness for `text2audio_accounting` on two chunks of 700 ms each. -/
theorem text2audio_accounting_witness :
    (text2audioRun ["hi".data, "yo".data] (fun _ => 700)).outPath =
      some 2400 ∧
    (text2audioRun ["hi".data, "yo".data]
        (fun _ => 700)).progress.getLast? = some 1 := by
  have h := text2audio_accounting ["hi".data, "yo".data] (fun _ => 700)
    (by simp)
  exact ⟨by rw [h.2.1]; rfl, h.2.2.2⟩

lemma t2aLoopE_fail (gen : List Char → Except String ℕ) (total : ℕ)
    (dur : List Char → ℕ) (bad : List Char) (rest : List (List Char))
    (e : String) (hbad : gen bad = Except.error e) :
    ∀ (pre : List (List Char)) (i : ℕ) (st : T2ARunE),
    (∀ l ∈ pre, gen l = Except.ok (dur l)) →
    (t2aLoopE gen total i (pre ++ bad :: rest) st).err = some e ∧
    (t2aLoopE gen total i (pre ++ bad :: rest) st).calls =
      st.calls ++ pre ++ [bad] ∧
    (t2aLoopE gen total i (pre ++ bad :: rest) st).outPath =
      (if pre = [] then st.outPath
       else some ((st.segments ++ pre.map (fun l => dur l + 500)).sum)) := by
  intro pre
  induction pre with
  | nil =>
    intro i st _
    simp only [List.nil_append, t2aLoopE, hbad]
    simp
  | cons p pre ih =>
    intro i st hpre
    have hp : gen p = Except.ok (dur p) := hpre p (by simp)
    simp only [List.cons_append, t2aLoopE, hp, List.append_eq]
    have hrec := ih (i + 1)
      (T2ARunE.mk (st.calls ++ [p])
        (st.progress ++ [((i + 1 : ℕ) : ℚ) / (total : ℚ)])
        (st.segments ++ [dur p + 500])
        (some ((st.segments ++ [dur p + 500]).sum))
        st.err)
      (fun l hl => hpre l (List.mem_cons_of_mem _ hl))
    refine ⟨hrec.1, ?_, ?_⟩
    · rw [hrec.2.1]
      simp
    · rw [hrec.2.2]
      by_cases hps : pre = []
      · simp [hps]
      · rw [if_neg hps, if_neg (List.cons_ne_nil p pre)]
        simp [List.append_assoc]

/-- C5 (amended): if the per-segment synthesis call raises for a segment,
`text2audio` fails as a whole (the exception propagates, aborting the
loop), but the combined audio of the segments before the failing one is
left at `out_path` whenever at least one earlier segment succeeded, and
the propagated error is the synthesizer's own exception, with no segment
index attached by `text2audio`. -/
theorem text2audio_partial_output (pre : List (List Char)) (bad : List Char)
    (rest : List (List Char)) (gen : List Char → Except String ℕ)
    (dur : List Char → ℕ) (e : String)
    (hpre : ∀ l ∈ pre, gen l = Except.ok (dur l))
    (hbad : gen bad = Except.error e) :
    (text2audioRunE (pre ++ bad :: rest) gen).err = some e ∧
    (text2audioRunE (pre ++ bad :: rest) gen).calls = pre ++ [bad] ∧
    (text2audioRunE (pre ++ bad :: rest) gen).outPath =
      (if pre = [] then none
       else some ((pre.map dur).sum + pre.length * 500)) := by
  have h := t2aLoopE_fail gen (pre ++ bad :: rest).length dur bad rest e hbad
    pre 0 ⟨[], [], [], none, none⟩ hpre
  unfold text2audioRunE
  refine ⟨h.1, by rw [h.2.1]; simp, ?_⟩
  rw [h.2.2]
  by_cases hp : pre = []
  · simp [hp]
  · rw [if_neg hp, if_neg hp]
    rw [List.nil_append, sum_map_add_silence]

/-- C5 counterexample: with two chunks whose second synthesis call raises,
`text2audio` leaves the first segment's audio (600 ms: 100 ms of speech
plus the 500 ms silence) at `out_path`, and the escaped error is the
synthesizer's own exception without a segment index. -/
theorem text2audio_partial_output_cx :
    (text2audioRunE ["a".data, "b".data]
        (fun l => if l = "b".data then Except.error "synthesis failed"
                  else Except.ok 100)).err = some "synthesis failed" ∧
    (text2audioRunE ["a".data, "b".data]
        (fun l => if l = "b".data then Except.error "synthesis failed"
                  else Except.ok 100)).outPath = some 600 :=
  ⟨by decide, by decide⟩

/-- Witness for `text2audio_partial_output` on one successful 100 ms
segment followed by a failing one. -/
theorem text2audio_partial_output_witness :
    (text2audioRunE (["a".data] ++ "b".data :: [])
        (fun l => if l = "a".data then Except.ok 100
                  else Except.error "boom")).outPath =
      (if (["a".data] : List (List Char)) = [] then none
       else some (((["a".data] : List (List Char)).map (fun _ => 100)).sum +
         (["a".data] : List (List Char)).length * 500)) := by
  have h := text2audio_partial_output ["a".data] "b".data []
    (fun l => if l = "a".data then Except.ok 100 else Except.error "boom")
    (fun _ => 100) "boom"
    (by intro l hl; rw [List.mem_singleton] at hl; subst hl; rfl)
    (by rfl)
  exact h.2.2

/-! ## Claim theorems: VoiceRegistry -/

/-- C3: `VoiceManager` holds no lock at all — two concurrent `add_voice`
calls against the same registry directory do not serialize. In the
interleaving where both processes load the index before either saves
(each instance loads once, in `__init__`), both calls report success, yet
the final index on disk contains only the second voice: the first write
is lost, which no serial order of the two operations produces. The
repository's own `tests/test_voice_manager_locking.py` requires a
`voices.json.lock` file lock that the code does not define. -/
theorem unlocked_add_voice_lost_update :
    (add_voice ⟨"voices", load_metadata (writeIndex [])⟩
        "v1" "s1.wav" true).1 = true ∧
    (add_voice ⟨"voices", load_metadata (writeIndex [])⟩
        "v2" "s2.wav" true).1 = true ∧
    hasKey (load_metadata (writeIndex
      (add_voice ⟨"voices", load_metadata (writeIndex [])⟩
        "v1" "s1.wav" true).2.metadata)) "v1" = true ∧
    hasKey (load_metadata (writeIndex
      (add_voice ⟨"voices", load_metadata (writeIndex [])⟩
        "v2" "s2.wav" true).2.metadata)) "v2" = true ∧
    hasKey (load_metadata (writeIndex
      (add_voice ⟨"voices", load_metadata (writeIndex [])⟩
        "v2" "s2.wav" true).2.metadata)) "v1" = false :=
  ⟨by decide, by decide, by decide, by decide, by decide⟩

/-- C4 counterexample: starting from the empty registry, `add_voice` whose
index write fails returns failure, yet the staged entry remains observable:
`voice_exists "alice"` reports `true` after the failed call. -/
theorem add_voice_failure_visible_cx :
    (add_voice ⟨"voices", []⟩ "alice" "a.wav" false).1 = false ∧
    voice_exists (add_voice ⟨"voices", []⟩ "alice" "a.wav" false).2
      "alice" = true :=
  ⟨by decide, by decide⟩

/-- C4 (amended): failures detected before any mutation is staged (empty or
duplicate name, unsupported extension, absent name for removal, a failed
directory deletion) leave the mapping unchanged; but when `_save_metadata`
fails after the mutation was staged, the call returns failure while the
staged insertion (or deletion) remains in the in-process mapping, so
subsequent `voice_exists` calls observe it — and the index itself is
written in place, not via a temporary file and rename. -/
theorem vm_mutation_failure_state (st : VMState) (name fname : String) :
    (∀ saveOk, (name = "" ∨ hasKey st.metadata name) →
      add_voice st name fname saveOk = (false, st)) ∧
    (∀ saveOk, (".wav".data).isSuffixOf (lowerData fname) = false →
      (".mp3".data).isSuffixOf (lowerData fname) = false →
      add_voice st name fname saveOk = (false, st)) ∧
    (∀ rmtreeOk saveOk, hasKey st.metadata name = false →
      remove_voice st name rmtreeOk saveOk = (false, st)) ∧
    (∀ saveOk, hasKey st.metadata name = true →
      remove_voice st name false saveOk = (false, st)) ∧
    (name ≠ "" → hasKey st.metadata name = false →
      (".wav".data).isSuffixOf (lowerData fname) = true →
      (add_voice st name fname false).1 = false ∧
      voice_exists (add_voice st name fname false).2 name = true) ∧
    (hasKey st.metadata name = true →
      (remove_voice st name true false).1 = false ∧
      voice_exists (remove_voice st name true false).2 name = false) := by
  refine ⟨?_, ?_, ?_, ?_, ?_, ?_⟩
  · intro saveOk h
    simp [add_voice, h]
  · intro saveOk hw hm
    by_cases h : name = "" ∨ hasKey st.metadata name
    · simp [add_voice, h]
    · simp [add_voice, h, hw, hm]
  · intro rmtreeOk saveOk h
    simp [remove_voice, h]
  · intro saveOk h
    simp [remove_voice, h]
  · intro hn hk hw
    have hcond : ¬ (name = "" ∨ hasKey st.metadata name) := by
      simp [hn, hk]
    constructor
    · simp [add_voice, hcond, hw]
    · simp only [add_voice]
      rw [if_neg hcond]
      simp [hw, voice_exists, hasKey]
  · intro hk
    constructor
    · simp [remove_voice, hk]
    · simp only [remove_voice, hk, if_neg, voice_exists]
      rw [if_neg (by simp), if_neg (by simp)]
      simp only [if_neg (by simp : ¬ false = true)]
      rw [hasKey]
      rw [List.any_eq_false]
      intro p hp
      have := (List.mem_filter.mp hp).2
      simp at this ⊢
      exact this

/-- Witness for `vm_mutation_failure_state`: an empty name is rejected with
no state change, and a failed index write after staging leaves the staged
name visible. -/
theorem vm_mutation_failure_state_witness :
    add_voice ⟨"voices", []⟩ "" "a.wav" true = (false, ⟨"voices", []⟩) ∧
    voice_exists (add_voice ⟨"voices", []⟩ "bob" "b.wav" false).2
      "bob" = true := by
  refine ⟨(vm_mutation_failure_state ⟨"voices", []⟩ "" "a.wav").1 true
    (Or.inl rfl), ?_⟩
  exact ((vm_mutation_failure_state ⟨"voices", []⟩ "bob" "b.wav").2.2.2.2.1
    (by decide) (by decide) (by decide)).2

/-- C7 counterexample: `add_voice` does not reject the reserved name — on
an empty registry, adding `"Model default"` succeeds, stores the entry, and
`get_voice_list` then shows `"Model default"` twice. -/
theorem model_default_stored_cx :
    (add_voice ⟨"voices", []⟩ "Model default" "md.wav" true).1 = true ∧
    get_voice_list
      (add_voice ⟨"voices", []⟩ "Model default" "md.wav" true).2 =
      ["Model default", "Model default"] :=
  ⟨by decide, by decide⟩

/-- C7 (amended): the registry never stores `"Model default"` of its own
accord — `get_voice_path` maps it to `none` and every `get_voice_list`
result starts with it — but `add_voice` does not treat the name as
reserved: when it is not yet a key, adding it succeeds and stores it (after
which it appears twice in the listing). -/
theorem model_default_reserved (st : VMState) (fx : String → Bool) :
    get_voice_path st fx "Model default" = none ∧
    (∃ rest, get_voice_list st = "Model default" :: rest) ∧
    (hasKey st.metadata "Model default" = false →
      (add_voice st "Model default" "v.wav" true).1 = true ∧
      hasKey (add_voice st "Model default" "v.wav" true).2.metadata
        "Model default" = true) := by
  refine ⟨by simp [get_voice_path], ⟨_, rfl⟩, ?_⟩
  intro hk
  have hcond : ¬ (("Model default" : String) = "" ∨
      hasKey st.metadata "Model default" = true) := by
    simp [hk]
  have hw : (".wav".data).isSuffixOf (lowerData "v.wav") = true := by decide
  constructor
  · simp [add_voice, hcond, hw, hk]
  · simp only [add_voice]
    rw [if_neg hcond]
    simp [hw, hasKey]

/-- Witness for `model_default_reserved` on the empty registry. -/
theorem model_default_reserved_witness :
    get_voice_path ⟨"voices", []⟩ (fun _ => true) "Model default" = none ∧
    (add_voice ⟨"voices", []⟩ "Model default" "v.wav" true).1 = true := by
  refine ⟨(model_default_reserved ⟨"voices", []⟩ (fun _ => true)).1, ?_⟩
  exact ((model_default_reserved ⟨"voices", []⟩ (fun _ => true)).2.2
    (by decide)).1

/-- C9 counterexample: `_load_metadata` silently maps a corrupt index file
to the empty registry — indistinguishable from a missing index — instead of
reporting an error. -/
theorem corrupt_index_silent_cx :
    load_metadata (some (Except.error "not valid JSON")) = [] ∧
    load_metadata none = [] :=
  ⟨rfl, rfl⟩

/-- C9 (amended): `get_voice_path` deliberately self-heals, returning
`none` for a voice whose backing file vanished externally; but an
unreadable or corrupt index file is not reported either — `_load_metadata`
silently treats it as an empty registry. -/
theorem registry_error_policy (st : VMState) (fx : String → Bool)
    (name : String) (m : VMeta) (e : String)
    (h1 : name ≠ "Model default") (h2 : lookupKey st.metadata name = some m)
    (h3 : fx m.path = false) :
    load_metadata (some (Except.error e)) = [] ∧
    get_voice_path st fx name = none := by
  refine ⟨rfl, ?_⟩
  simp [get_voice_path, h1, h2, h3]

/-- Witness for `registry_error_policy`: a registered voice whose sample
file no longer exists resolves to `none`. -/
theorem registry_error_policy_witness :
    load_metadata (some (Except.error "bad index")) = [] ∧
    get_voice_path ⟨"v", [("bob", ⟨"p.wav", "b.wav", "d"⟩)]⟩
      (fun _ => false) "bob" = none :=
  registry_error_policy ⟨"v", [("bob", ⟨"p.wav", "b.wav", "d"⟩)]⟩
    (fun _ => false) "bob" ⟨"p.wav", "b.wav", "d"⟩ "bad index"
    (by decide) (by decide) rfl

/-! ## Claim theorems: ChatterboxLocal -/

lemma pyOrQ_ne_zero (x : Option ℚ) (d : ℚ) (hd : d ≠ 0) : pyOrQ x d ≠ 0 := by
  cases x with
  | none => simpa [pyOrQ] using hd
  | some v =>
    simp only [pyOrQ]
    split
    · exact hd
    · assumption

/-- C10: for each of `exaggeration`, `cfg_weight`, `temperature`, passing
`0.0` to the `ChatterboxLocal` constructor is indistinguishable from
omitting the parameter — Python's `or` replaces the falsy `0.0` by the
built-in defaults `0.6`, `0.5`, `0.8` — and likewise `generate` treats an
explicit `0.0` exaggeration exactly like an omitted one; consequently no
caller can make an effective parameter equal to `0.0`. -/
theorem zero_param_is_default :
    (∀ cw te : Option ℚ,
      chatterboxInit (some 0) cw te = chatterboxInit none cw te) ∧
    (∀ ex te : Option ℚ,
      chatterboxInit ex (some 0) te = chatterboxInit ex none te) ∧
    (∀ ex cw : Option ℚ,
      chatterboxInit ex cw (some 0) = chatterboxInit ex cw none) ∧
    chatterboxInit (some 0) (some 0) (some 0) =
      CBParams.mk (6/10) (1/2) (8/10) ∧
    (∀ self : CBParams, generateEffExaggeration self (some 0) =
      generateEffExaggeration self none) ∧
    (∀ ex cw te : Option ℚ,
      (chatterboxInit ex cw te).exaggeration ≠ 0 ∧
      (chatterboxInit ex cw te).cfg_weight ≠ 0 ∧
      (chatterboxInit ex cw te).temperature ≠ 0) := by
  refine ⟨?_, ?_, ?_, by simp [chatterboxInit, pyOrQ], ?_, ?_⟩
  · intro cw te; simp [chatterboxInit, pyOrQ]
  · intro ex te; simp [chatterboxInit, pyOrQ]
  · intro ex cw; simp [chatterboxInit, pyOrQ]
  · intro self; simp [generateEffExaggeration, pyOrQ]
  · intro ex cw te
    exact ⟨pyOrQ_ne_zero ex (6/10) (by norm_num),
      pyOrQ_ne_zero cw (1/2) (by norm_num),
      pyOrQ_ne_zero te (8/10) (by norm_num)⟩

/-- Witness for `zero_param_is_default`: an explicit `0.0` exaggeration
yields the same constructed parameters as omitting it. -/
theorem zero_param_is_default_witness :
    chatterboxInit (some 0) none none = chatterboxInit none none none :=
  zero_param_is_default.1 none none
